import Mathlib

/-!
# Verification of the Interview_Prep retrieval / parsing / evaluation core

Shallow embedding of the JavaScript functions `parseQuestions`, `parseAnswers`
(src/server/controllers/chatController.js), and `cosineSimilarity`,
`findSimilarChunks`, `retryWithBackoff`, `evaluateAllAnswers`
(the gemini utility module bundled in the same source file).

Modelling conventions:
* JS strings are Lean `String`s; character-level scanning is done on `List Char`.
* JS numbers appearing as vector components are modelled as `Option ℚ`:
  `some q` is a finite number with exact value `q`, `none` is NaN.  Exact
  rational arithmetic has no overflow, so NaN is the only non-finite value
  that can arise; JS float rounding is idealised away.
* `Math.sqrt` has no exact counterpart on ℚ, so it is passed as an explicit
  parameter `sq : ℚ → ℚ`; every theorem below holds for an arbitrary such
  function (with its sign behaviour `sq 0 = 0` assumed only where the source
  relies on `Math.sqrt x === 0 ↔ x === 0`).
* `parseInt` on a run of decimal digits is exact integer parsing.
* Regex semantics (`/^(\d+)\.\s*(.+)/`, `/Relevance:\s*(\d+)/i`,
  `/Question \d+:/i`, `/Feedback:\s*(.+?)(?=\n\n|\n*$)/is`) are translated to
  explicit scanning functions with JS `\s` (whitespace) and `.`
  (any char except line terminators \n \r U+2028 U+2029) classes.
-/

/-- JS `\s` character class (also the set trimmed by `String.prototype.trim`). -/
def isJsWs (c : Char) : Bool :=
  c = ' ' || c = '\t' || c = '\n' || c = '\r' ||
  c.val = 11 || c.val = 12 || c.val = 0xa0 || c.val = 0x1680 ||
  (0x2000 ≤ c.val && c.val ≤ 0x200a) ||
  c.val = 0x2028 || c.val = 0x2029 || c.val = 0x202f || c.val = 0x205f ||
  c.val = 0x3000 || c.val = 0xfeff

/-- Line-terminator characters, the ones NOT matched by `.` in a JS regex
without the `s` flag. -/
def isLineTerm (c : Char) : Bool :=
  c = '\n' || c = '\r' || c.val = 0x2028 || c.val = 0x2029

/-- `String.prototype.trim` on a character list. -/
def jsTrimL (cs : List Char) : List Char :=
  ((cs.dropWhile isJsWs).reverse.dropWhile isJsWs).reverse

/-- `String.prototype.trim`. -/
def jsTrim (s : String) : String :=
  String.mk (jsTrimL s.toList)

/-- `parseInt` on a (non-empty) run of decimal digits, idealised to exact `Nat`. -/
def digitsToNat (ds : List Char) : Nat :=
  ds.foldl (fun n c => n * 10 + (c.toNat - '0'.toNat)) 0

/-- Case-insensitive (ASCII) "starts with `key`" test; `key` is given in
lower case.  Models the `i` flag of the JS regexes used by the source, whose
patterns are ASCII-only. -/
def ciStarts : List Char → List Char → Bool
  | [], _ => true
  | _ :: _, [] => false
  | k :: ks, c :: cs => k == c.toLower && ciStarts ks cs

/-- `text.split(sep)` for a single-character separator, on character lists
(JS `split` keeps empty pieces; `"".split` gives one empty piece). -/
def splitOnChar (sep : Char) : List Char → List (List Char)
  | [] => [[]]
  | c :: rest =>
    match splitOnChar sep rest with
    | [] => [[]]
    | piece :: pieces =>
      if c = sep then [] :: piece :: pieces else (c :: piece) :: pieces

/-- A parsed `{ number, text }` record, the shape pushed by both
`parseQuestions` and `parseAnswers` in the source. -/
structure NumberedItem where
  number : Nat
  text : String
deriving DecidableEq, Repr

/-- The `\s*(.+)` tail of `/^(\d+)\.\s*(.+)/` applied to the characters that
follow the period, with `.` excluding line terminators.  Returns the captured
characters (before the final `.trim()` of the source), or `none` when the
regex does not match.  A JS regex backtracking analysis shows the match fails
exactly when everything after the period consists of line terminators
(including the empty case), and otherwise the capture trims to
`(rest.dropWhile isJsWs).takeWhile (!isLineTerm ·)` trimmed. -/
def dotCapture (rest : List Char) : Option (List Char) :=
  if rest.all isLineTerm then none
  else some ((rest.dropWhile isJsWs).takeWhile (fun c => !isLineTerm c))

/-- `line.match(/^(\d+)\.\s*(.+)/)` followed by
`{ number: parseInt(m[1]), text: m[2].trim() }`, shared by `parseQuestions`
and `parseAnswers`; `line` is a newline-free list of characters. -/
def matchNumLine (cs : List Char) : Option NumberedItem :=
  let ds := cs.takeWhile Char.isDigit
  if ds.isEmpty then none
  else
    match cs.drop ds.length with
    | '.' :: rest =>
        match dotCapture rest with
        | some cap => some ⟨digitsToNat ds, String.mk (jsTrimL cap)⟩
        | none => none
    | _ => none

/-- `parseQuestions` from chatController.js: split on newlines, keep lines
whose trim is non-empty (JS truthiness), push every line matching
`/^(\d+)\.\s*(.+)/` as `{number, text}`. -/
def parseQuestions (text : String) : List NumberedItem :=
  let lines := (splitOnChar '\n' text.toList).filter (fun l => !(jsTrimL l).isEmpty)
  lines.filterMap matchNumLine

/-- The `answers` array built by `parseAnswers` before its count check:
lines are trimmed first, empty ones dropped, then matched by the same
`/^(\d+)\.\s*(.+)/` pattern. -/
def parsedAnswerLines (text : String) : List NumberedItem :=
  let lines := ((splitOnChar '\n' text.toList).map jsTrimL).filter (fun l => !l.isEmpty)
  lines.filterMap matchNumLine

/-- `parseAnswers(text, expectedCount)` from chatController.js:
`answers.length === expectedCount ? answers : null`. -/
def parseAnswers (text : String) (expectedCount : Nat) : Option (List NumberedItem) :=
  let answers := parsedAnswerLines text
  if answers.length = expectedCount then some answers else none

/-! ## VectorIndex: `cosineSimilarity` and `findSimilarChunks` -/

/-- A scalar of the JS number line as used by the vector code: `some q` is a
finite value, `none` is NaN (exact arithmetic has no overflow, so NaN is the
only non-finite value arising in the model). -/
abbrev OptQ := Option ℚ

/-- JS `+` on scalars: NaN-absorbing addition. -/
def addO (x y : OptQ) : OptQ :=
  match x, y with
  | some a, some b => some (a + b)
  | _, _ => none

/-- JS `*` on scalars: NaN-absorbing multiplication (in exact arithmetic
`0 * NaN` is NaN, as in JS). -/
def mulO (x y : OptQ) : OptQ :=
  match x, y with
  | some a, some b => some (a * b)
  | _, _ => none

/-- JS `/` on scalars.  Division by exact zero yields a non-finite value in
JS; the model folds every non-finite outcome into `none` (this branch is
unreachable in `cosineSimilarity`, which guards zero magnitudes). -/
def divO (x y : OptQ) : OptQ :=
  match x, y with
  | some a, some b => if b = 0 then none else some (a / b)
  | _, _ => none

/-- `Math.sqrt` lifted to scalars: NaN-absorbing, NaN on negative input,
abstract `sq : ℚ → ℚ` on non-negative input. -/
def sqrtO (sq : ℚ → ℚ) (x : OptQ) : OptQ :=
  match x with
  | some a => if a < 0 then none else some (sq a)
  | none => none

/-- `isNaN` on a scalar. -/
def isNaNO (x : OptQ) : Bool := x.isNone

/-- `cosineSimilarity(vecA, vecB)` from the gemini utility module.
Throws (`Except.error`) on length mismatch (the `!vecA || !vecB` null guards
throw the same error and are outside the embedded vector type), returns `0`
when either magnitude is exactly zero, otherwise divides the dot product by
the product of the magnitudes. -/
def cosineSimilarity (sq : ℚ → ℚ) (vecA vecB : List OptQ) : Except String OptQ :=
  if vecA.length ≠ vecB.length then
    .error "Invalid vectors for similarity calculation"
  else
    let dotProduct := (vecA.zip vecB).foldl (fun s p => addO s (mulO p.1 p.2)) (some 0)
    let magnitudeA := sqrtO sq (vecA.foldl (fun s a => addO s (mulO a a)) (some 0))
    let magnitudeB := sqrtO sq (vecB.foldl (fun s b => addO s (mulO b b)) (some 0))
    if magnitudeA = some 0 ∨ magnitudeB = some 0 then .ok (some 0)
    else .ok (divO dotProduct (mulO magnitudeA magnitudeB))

/-- A document chunk: text plus stored embedding. -/
structure Chunk where
  text : String
  embedding : List OptQ
deriving DecidableEq, Repr

/-- The `{ index, chunk, similarity }` record built by `findSimilarChunks`. -/
structure RetrievalResult where
  index : Nat
  chunk : Chunk
  similarity : OptQ
deriving DecidableEq, Repr

/-- The `chunks.map((chunk, index) => ({index, chunk, similarity: ...}))`
step of `findSimilarChunks`, with `i` the index of the first chunk of the
remaining list.  The first throwing `cosineSimilarity` call aborts the whole
map (JS exception propagation). -/
def simsFrom (sq : ℚ → ℚ) (q : List OptQ) (i : Nat) :
    List Chunk → Except String (List RetrievalResult)
  | [] => .ok []
  | c :: cs =>
    match cosineSimilarity sq q c.embedding with
    | .error e => .error e
    | .ok s =>
      match simsFrom sq q (i + 1) cs with
      | .error e => .error e
      | .ok rest => .ok (⟨i, c, s⟩ :: rest)

/-- The sort comparator `(a, b) => b.similarity - a.similarity` as a
"may come before" test: `simLe a b` iff `a.similarity ≥ b.similarity`.
NaN similarities are filtered out before the sort, so only the
`some`/`some` case is ever exercised; the `none` cases are fixed (NaN as a
top element) purely so that the relation is total and transitive. -/
def simLe (a b : RetrievalResult) : Bool :=
  match a.similarity, b.similarity with
  | some x, some y => decide (y ≤ x)
  | none, _ => true
  | some _, none => false

/-- Stable insertion of `x` into a list sorted by `le`: `x` is placed before
the first element it may precede, hence after all earlier ties. -/
def insertBy (le : α → α → Bool) (x : α) : List α → List α
  | [] => [x]
  | y :: ys => if le x y then x :: y :: ys else y :: insertBy le x ys

/-- Stable insertion sort.  `Array.prototype.sort` is required to be stable
by ECMAScript, and a stable sort with a consistent comparator has a unique
output, so any stable sort models the source's `.sort(...)` faithfully. -/
def stableSort (le : α → α → Bool) : List α → List α
  | [] => []
  | x :: xs => insertBy le x (stableSort le xs)

/-- `findSimilarChunks(queryEmbedding, chunks, topK)` from the gemini
utility module.  `none` on either input models JS `null`/`undefined`
(an empty array is truthy in JS, so it does not trip the guard); the
`try`/`catch` returning `[]` on any thrown error is the `.error` branch. -/
def findSimilarChunks (sq : ℚ → ℚ) (queryEmbedding : Option (List OptQ))
    (chunks : Option (List Chunk)) (topK : Nat) : List RetrievalResult :=
  match queryEmbedding, chunks with
  | none, _ => []
  | _, none => []
  | some q, some cs =>
    if cs.length = 0 then []
    else
      match simsFrom sq q 0 cs with
      | .error _ => []
      | .ok similarities =>
        let kept := similarities.filter (fun item => !(isNaNO item.similarity))
        (stableSort simLe kept).take topK

/-! ## AnswerEvaluator: `retryWithBackoff` and `evaluateAllAnswers` -/

/-- One `{question, answer}` pair, the element type of `questionsAndAnswers`. -/
structure QA where
  question : String
  answer : String
deriving DecidableEq, Repr

/-- One parsed `Evaluation`.  Scores are `Nat`: `parseInt` on a digit run,
`Math.round` of a half-integer average, and clamping all produce non-negative
integers, so the model's scores being naturals reflects the source exactly. -/
structure Evaluation where
  score : Nat
  relevanceScore : Nat
  correctnessScore : Nat
  feedback : String
deriving DecidableEq, Repr

/-- An error thrown by the external provider call, reduced to the two fields
`retryWithBackoff` inspects: `error.status` and whether `error.message`
includes the substring "overloaded". -/
structure ProviderError where
  status : Option Nat
  overloadedMsg : Bool
deriving DecidableEq, Repr

/-- `error.status === 503 || error.status === 429 ||
error.message?.includes('overloaded')` from `retryWithBackoff`. -/
def isRateLimitError (e : ProviderError) : Bool :=
  e.status = some 503 || e.status = some 429 || e.overloadedMsg

/-- `MAX_RETRIES` from the gemini utility module. -/
def MAX_RETRIES : Nat := 3

/-- The retry loop of `retryWithBackoff`, with the outcome of the `i`-th
attempt supplied by the environment `fn` and `rem` the number of attempts
left.  `some (.ok a)` is a normal return, `some (.error e)` a rethrow
(last attempt, or non-rate-limit error), and `none` the fall-through when the
loop body never runs (`retries ≤ 0`; unreachable for `MAX_RETRIES = 3`).
Backoff delays are pure timing side effects and are not modelled. -/
def retryAux (fn : Nat → Except ProviderError α) : Nat → Nat → Option (Except ProviderError α)
  | _, 0 => none
  | i, rem + 1 =>
    match fn i with
    | .ok a => some (.ok a)
    | .error e =>
      if rem = 0 ∨ ¬ isRateLimitError e then some (.error e)
      else retryAux fn (i + 1) rem

/-- `retryWithBackoff(fn, retries)` from the gemini utility module. -/
def retryWithBackoff (fn : Nat → Except ProviderError α) (retries : Nat) :
    Option (Except ProviderError α) :=
  retryAux fn 0 retries

/-- The header pattern `/Question \d+:/i` tested at the head of `s`:
on a match, returns the characters following the match. -/
def qHeaderRem (s : List Char) : Option (List Char) :=
  if ciStarts "question ".toList s then
    let t := s.drop 9
    let ds := t.takeWhile Char.isDigit
    if ds.isEmpty then none
    else
      match t.drop ds.length with
      | ':' :: r => some r
      | _ => none
  else none

theorem ciStarts_length {k s : List Char} (h : ciStarts k s = true) : k.length ≤ s.length := by
  induction k generalizing s with
  | nil => simp
  | cons a ks ih =>
    cases s with
    | nil => simp [ciStarts] at h
    | cons c cs =>
      simp only [ciStarts, Bool.and_eq_true] at h
      simpa using ih h.2

theorem qHeaderRem_length {s r : List Char} (h : qHeaderRem s = some r) :
    r.length < s.length := by
  simp only [qHeaderRem] at h
  split at h
  · rename_i hq
    have h9 : (9 : Nat) ≤ s.length := by simpa using ciStarts_length hq
    split at h
    · simp at h
    · split at h
      · rename_i r' heq
        injection h with h'
        subst h'
        have hlen := congrArg List.length heq
        simp only [List.length_drop, List.length_cons] at hlen
        omega
      · simp at h
  · simp at h

/-- `text.split(/Question \d+:/i)`: accumulate characters until a header
match, emit the piece, continue after the match.  `acc` holds the current
piece reversed.  The recursion is paced by `fuel`; since every step consumes
at least one character (`qHeaderRem_length`), any `fuel ≥ s.length` gives
the splitting function's true value (`splitQFuel_congr` below). -/
def splitQFuel : Nat → List Char → List Char → List String
  | 0, acc, _ => [String.mk acc.reverse]
  | _ + 1, acc, [] => [String.mk acc.reverse]
  | fuel + 1, acc, c :: rest =>
    match qHeaderRem (c :: rest) with
    | some r => String.mk acc.reverse :: splitQFuel fuel [] r
    | none => splitQFuel fuel (c :: acc) rest

/-- Fuel irrelevance: `splitQFuel` computes the same pieces for any fuel at
least the length of the remaining text, so the fuel in
`splitQuestionBlocks` is never exhausted. -/
theorem splitQFuel_congr :
    ∀ (f₁ f₂ : Nat) (acc s : List Char), s.length ≤ f₁ → s.length ≤ f₂ →
      splitQFuel f₁ acc s = splitQFuel f₂ acc s := by
  intro f₁
  induction f₁ using Nat.strong_induction_on with
  | _ f₁ ih =>
    intro f₂ acc s h₁ h₂
    cases s with
    | nil => cases f₁ <;> cases f₂ <;> rfl
    | cons c rest =>
      cases f₁ with
      | zero => simp at h₁
      | succ g₁ =>
        cases f₂ with
        | zero => simp at h₂
        | succ g₂ =>
          cases hq : qHeaderRem (c :: rest) with
          | some r =>
            have hr := qHeaderRem_length hq
            simp only [List.length_cons] at h₁ h₂ hr
            simp only [splitQFuel, hq]
            rw [ih g₁ (by omega) g₂ [] r (by omega) (by omega)]
          | none =>
            simp only [List.length_cons] at h₁ h₂
            simp only [splitQFuel, hq]
            exact ih g₁ (by omega) g₂ (c :: acc) rest (by omega) (by omega)

/-- `text.split(/Question \d+:/i)` from `evaluateAllAnswers`. -/
def splitQuestionBlocks (text : String) : List String :=
  splitQFuel text.toList.length [] text.toList

/-- `block.match(/KEY:\s*(\d+)/i)` followed by `parseInt` on the capture:
leftmost occurrence of `key` (lower-case, ASCII case-insensitive) that is
followed, after optional whitespace, by at least one digit; the maximal digit
run there is the parsed value. -/
def findKeyNum (key : List Char) : List Char → Option Nat
  | [] => none
  | c :: rest =>
    if ciStarts key (c :: rest) then
      let after := (c :: rest).drop key.length
      let ds := (after.dropWhile isJsWs).takeWhile Char.isDigit
      if ds.isEmpty then findKeyNum key rest
      else some (digitsToNat ds)
    else findKeyNum key rest

/-- Characters up to (excluding) the first occurrence of a blank line
(`"\n\n"`). -/
def takeToBlank : List Char → List Char
  | [] => []
  | '\n' :: '\n' :: _ => []
  | c :: rest => c :: takeToBlank rest

/-- `block.match(/Feedback:\s*(.+?)(?=\n\n|\n*$)/is)` followed by `.trim()`
on the capture: leftmost occurrence of `feedback:` with a non-empty remainder
matches; a backtracking analysis of the lazy capture and the lookahead shows
the trimmed capture equals the remainder with leading whitespace dropped,
truncated at the first blank line, then trimmed. -/
def fbExtract : List Char → Option String
  | [] => none
  | c :: rest =>
    if ciStarts "feedback:".toList (c :: rest) then
      let after := (c :: rest).drop 9
      if after.isEmpty then fbExtract rest
      else some (String.mk (jsTrimL (takeToBlank (after.dropWhile isJsWs))))
    else fbExtract rest

/-- `Math.max(1, Math.min(10, n))`. -/
def clampScore (n : Nat) : Nat := max 1 (min 10 n)

/-- The per-block parsing step of `evaluateAllAnswers`: extract the three
scores (missing relevance/correctness default to 5, missing overall to the
rounded average `Math.round((relevance + correctness) / 2)`, which on
naturals is `(r + c + 1) / 2`), extract feedback (with its generic default),
then clamp every score into [1, 10]. -/
def parseBlock (block : String) : Evaluation :=
  let cs := block.toList
  let relevanceScore := (findKeyNum "relevance:".toList cs).getD 5
  let correctnessScore := (findKeyNum "correctness:".toList cs).getD 5
  let overallScore := (findKeyNum "overall:".toList cs).getD
    ((relevanceScore + correctnessScore + 1) / 2)
  let feedback := (fbExtract cs).getD
    "Good effort. Consider providing more specific details and examples in your answers."
  { score := clampScore overallScore
    relevanceScore := clampScore relevanceScore
    correctnessScore := clampScore correctnessScore
    feedback := feedback }

/-- The neutral Evaluation pushed by the reconciliation `while` loop when
fewer blocks were parsed than questions asked. -/
def paddingEvaluation : Evaluation :=
  { score := 5
    relevanceScore := 5
    correctnessScore := 5
    feedback := "Unable to generate detailed feedback for this question. Your answer has been noted." }

/-- The neutral Evaluation returned (one per pair) by the outer `catch` of
`evaluateAllAnswers` when the provider call fails for good. -/
def fallbackEvaluation : Evaluation :=
  { score := 5
    relevanceScore := 5
    correctnessScore := 5
    feedback := "Unable to evaluate at this time due to technical issues. Please try again later or contact support if the problem persists." }

/-- The evaluations parsed from one block of split text: split on the
`/Question \d+:/i` headers, drop whitespace-only blocks, parse each block. -/
def blockEvals (text : String) : List Evaluation :=
  ((splitQuestionBlocks text).filter (fun b => !(jsTrim b).isEmpty)).map parseBlock

/-- Parsing plus post-parse reconciliation of `evaluateAllAnswers`: pad with
`paddingEvaluation` while shorter than the number of pairs (`while` loop),
then truncate to it (`evaluations.length = pairs.length`). -/
def parseEvaluations (text : String) (numPairs : Nat) : List Evaluation :=
  let evaluations := blockEvals text
  (evaluations ++ List.replicate (numPairs - evaluations.length) paddingEvaluation).take numPairs

/-- The function passed to `retryWithBackoff` by `evaluateAllAnswers`:
attempt `i` performs the external completion call (outcome `gen i`), throws
on empty response text, otherwise parses and reconciles.  The thrown
"Empty evaluation response" error has no `status` and no "overloaded"
message, so it is never retried. -/
def evalAttempt (gen : Nat → Except ProviderError String) (numPairs : Nat) (i : Nat) :
    Except ProviderError (List Evaluation) :=
  match gen i with
  | .error e => .error e
  | .ok text =>
    if (jsTrimL text.toList).isEmpty then .error ⟨none, false⟩
    else .ok (parseEvaluations text numPairs)

/-- `evaluateAllAnswers(questionsAndAnswers, resumeContext)` from the gemini
utility module, with the external completion call's outcomes supplied by
`gen`.  `resumeContext` only affects the prompt sent to the provider (an
empty context is replaced by placeholder text there), hence not the parsed
result.  The initial `questionsAndAnswers.length === 0` throw is caught by
the outer `catch`, whose fallback `map` over the empty list returns `[]`.
The `none` branch of the retry wrapper is unreachable for `MAX_RETRIES = 3`
and is mapped to the same fallback. -/
def evaluateAllAnswers (pairs : List QA) (resumeContext : String)
    (gen : Nat → Except ProviderError String) : List Evaluation :=
  if pairs.isEmpty then pairs.map (fun _ => fallbackEvaluation)
  else
    match retryWithBackoff (evalAttempt gen pairs.length) MAX_RETRIES with
    | some (.ok evaluations) => evaluations
    | some (.error _) => pairs.map (fun _ => fallbackEvaluation)
    | none => pairs.map (fun _ => fallbackEvaluation)

/-! ## Helper lemmas about the character-level primitives -/

theorem dropWhile_idem (p : α → Bool) (l : List α) :
    (l.dropWhile p).dropWhile p = l.dropWhile p := by
  induction l with
  | nil => rfl
  | cons c t ih =>
    by_cases h : p c
    · simp [List.dropWhile_cons, h, ih]
    · simp [List.dropWhile_cons, h]

theorem mem_of_mem_jsTrimL {c : Char} {l : List Char} (h : c ∈ jsTrimL l) : c ∈ l := by
  simp only [jsTrimL, List.mem_reverse] at h
  have h₁ := (List.dropWhile_sublist isJsWs).subset h
  simp only [List.mem_reverse] at h₁
  exact (List.dropWhile_sublist isJsWs).subset h₁

theorem jsTrimL_dropWhile (l : List Char) :
    jsTrimL (l.dropWhile isJsWs) = jsTrimL l := by
  simp only [jsTrimL, dropWhile_idem]

theorem splitOnChar_ne_nil (sep : Char) (l : List Char) : splitOnChar sep l ≠ [] := by
  cases l with
  | nil => simp [splitOnChar]
  | cons c rest =>
    simp only [splitOnChar]
    cases splitOnChar sep rest with
    | nil => simp
    | cons p ps =>
      by_cases h : c = sep <;> simp [h]

theorem splitOnChar_mem_mem {sep : Char} {l : List Char} :
    ∀ piece ∈ splitOnChar sep l, ∀ c ∈ piece, c ∈ l := by
  induction l with
  | nil =>
    intro piece hp c hc
    simp only [splitOnChar, List.mem_singleton] at hp
    subst hp
    simp at hc
  | cons a rest ih =>
    intro piece hp c hc
    simp only [splitOnChar] at hp
    split at hp
    · rename_i heq
      exact absurd heq (splitOnChar_ne_nil sep rest)
    · rename_i p ps heq
      by_cases ha : a = sep
      · rw [if_pos ha] at hp
        rcases List.mem_cons.mp hp with h | h
        · subst h; simp at hc
        · have hmem : piece ∈ splitOnChar sep rest := by rw [heq]; exact h
          exact List.mem_cons_of_mem _ (ih piece hmem c hc)
      · rw [if_neg ha] at hp
        rcases List.mem_cons.mp hp with h | h
        · subst h
          rcases List.mem_cons.mp hc with h' | h'
          · subst h'; exact List.mem_cons_self _ _
          · have hmem : p ∈ splitOnChar sep rest := by
              rw [heq]; exact List.mem_cons_self p ps
            exact List.mem_cons_of_mem _ (ih p hmem c h')
        · have hmem : piece ∈ splitOnChar sep rest := by
            rw [heq]; exact List.mem_cons_of_mem _ h
          exact List.mem_cons_of_mem _ (ih piece hmem c hc)

theorem splitOnChar_not_mem {sep : Char} {l : List Char} :
    ∀ piece ∈ splitOnChar sep l, sep ∉ piece := by
  induction l with
  | nil =>
    intro piece hp
    simp only [splitOnChar, List.mem_singleton] at hp
    subst hp
    simp
  | cons a rest ih =>
    intro piece hp
    simp only [splitOnChar] at hp
    split at hp
    · rename_i heq
      exact absurd heq (splitOnChar_ne_nil sep rest)
    · rename_i p ps heq
      by_cases ha : a = sep
      · rw [if_pos ha] at hp
        rcases List.mem_cons.mp hp with h | h
        · subst h; simp
        · exact ih piece (by rw [heq]; exact h)
      · rw [if_neg ha] at hp
        rcases List.mem_cons.mp hp with h | h
        · subst h
          intro hmem
          rcases List.mem_cons.mp hmem with h' | h'
          · exact ha h'.symm
          · exact ih p (by rw [heq]; exact List.mem_cons_self p ps) h'
        · exact ih piece (by rw [heq]; exact List.mem_cons_of_mem _ h)

/-- Any item produced by `matchNumLine` has line-terminator-free text (the
capture group of `/^(\d+)\.\s*(.+)/` never crosses a line terminator). -/
theorem matchNumLine_text_noLineTerm {cs : List Char} {a : NumberedItem}
    (h : matchNumLine cs = some a) : ∀ c ∈ a.text.toList, isLineTerm c = false := by
  simp only [matchNumLine] at h
  split at h
  · simp at h
  · split at h
    · rename_i rest heq
      cases hcap : dotCapture rest with
      | none => rw [hcap] at h; simp at h
      | some cap =>
        rw [hcap] at h
        simp only [Option.some.injEq] at h
        subst h
        intro c hc
        have hc' : c ∈ cap := mem_of_mem_jsTrimL hc
        simp only [dotCapture] at hcap
        split at hcap
        · simp at hcap
        · simp only [Option.some.injEq] at hcap
          subst hcap
          have := List.mem_takeWhile_imp hc'
          simpa using this
    · simp at h

/-- Spec-side line matcher for C5, written from the spec sentence: "a line
matches if it starts with one-or-more digits, a period, optional whitespace,
then content — captured as (number, trimmedText)" (content being the `.+` of
the stated pattern, i.e. at least one further character). -/
def specMatchLine (cs : List Char) : Option NumberedItem :=
  let ds := cs.takeWhile Char.isDigit
  if ds.isEmpty then none
  else
    match cs.drop ds.length with
    | '.' :: rest =>
      if rest.isEmpty then none
      else some ⟨digitsToNat ds, String.mk (jsTrimL rest)⟩
    | _ => none

/-- Spec-side `parseQuestions` for C5: scan non-empty lines, keep the
matching ones in source order. -/
def specParseQuestions (text : String) : List NumberedItem :=
  ((splitOnChar '\n' text.toList).filter (fun l => !(jsTrimL l).isEmpty)).filterMap
    specMatchLine

/-- On lines free of line terminators (`.` matches every character of the
line), the source's matcher coincides with the spec-side one. -/
theorem matchNumLine_eq_specMatchLine {cs : List Char}
    (hterm : ∀ c ∈ cs, isLineTerm c = false) :
    matchNumLine cs = specMatchLine cs := by
  simp only [matchNumLine, specMatchLine]
  split
  · rfl
  · split
    · rename_i rest heq
      have hrest : ∀ c ∈ rest, isLineTerm c = false := by
        intro c hc
        exact hterm c
          ((List.drop_sublist _ _).subset (by rw [heq]; exact List.mem_cons_of_mem _ hc))
      cases rest with
      | nil => simp [dotCapture]
      | cons r rs =>
        have hne : ¬((r :: rs).all isLineTerm = true) := by
          intro hall
          have := (List.all_eq_true.mp hall) r (List.mem_cons_self r rs)
          rw [hrest r (List.mem_cons_self r rs)] at this
          exact absurd this (by simp)
        have htake : ((r :: rs).dropWhile isJsWs).takeWhile (fun c => !isLineTerm c) =
            (r :: rs).dropWhile isJsWs := by
          rw [List.takeWhile_eq_self_iff]
          intro x hx
          have hxmem : x ∈ r :: rs := (List.dropWhile_sublist isJsWs).subset hx
          simp [hrest x hxmem]
        simp [dotCapture, hne, htake, jsTrimL_dropWhile]
    · rfl

/-! ## Claims C3, C4, C5, C9 (QAParser) -/

/-- C3: for every input text and every expectedCount N, `parseAnswers`
returns either exactly N answers or null; any count mismatch of the
recovered numbered segments yields null. -/
theorem C3_parseAnswers_exact_count_or_null :
    ∀ (text : String) (N : Nat),
      (∀ answers, parseAnswers text N = some answers → answers.length = N) ∧
      ((parsedAnswerLines text).length ≠ N → parseAnswers text N = none) := by
  intro text N
  constructor
  · intro answers h
    simp only [parseAnswers] at h
    split at h
    · rename_i hlen
      injection h with h'
      subst h'
      exact hlen
    · simp at h
  · intro hne
    simp only [parseAnswers]
    rw [if_neg hne]

/-- Witness for C3 at a concrete input: a two-answer submission is accepted
with exactly 2 items and rejected for expected count 3. -/
theorem C3_parseAnswers_exact_count_or_null_witness :
    ([⟨1, "It is an architecture style."⟩,
      ⟨2, "Consistency, Availability, Partition tolerance."⟩] : List NumberedItem).length = 2 ∧
    parseAnswers "1. It is an architecture style.\n2. Consistency, Availability, Partition tolerance." 3 = none :=
  ⟨(C3_parseAnswers_exact_count_or_null
      "1. It is an architecture style.\n2. Consistency, Availability, Partition tolerance." 2).1
      [⟨1, "It is an architecture style."⟩,
       ⟨2, "Consistency, Availability, Partition tolerance."⟩] (by decide),
   (C3_parseAnswers_exact_count_or_null
      "1. It is an architecture style.\n2. Consistency, Availability, Partition tolerance." 3).2
      (by decide)⟩

/-- C4 counterexample: `parseAnswers` does NOT capture a multi-line answer
body; with a continuation line between two numbered lines, answer 1's text is
only its own line's content ("first line"), not the full two-line body the
claim requires. -/
theorem C4_counterexample_multiline_truncated :
    parseAnswers "1. first line\nsecond line of answer one\n2. second answer" 2 =
      some [⟨1, "first line"⟩, ⟨2, "second answer"⟩] ∧
    parseAnswers "1. first line\nsecond line of answer one\n2. second answer" 2 ≠
      some [⟨1, "first line\nsecond line of answer one"⟩, ⟨2, "second answer"⟩] :=
  ⟨by decide, by decide⟩

/-- C4 amended: `parseAnswers` matches each line independently against the
`digit(s)+period` pattern; an answer's text is the trimmed content of its own
numbered line only (hence newline-free), and continuation lines without a
leading marker are skipped, so multi-line bodies are truncated to their first
line. -/
theorem C4_amended_single_line_capture :
    ∀ (text : String) (N : Nat) (answers : List NumberedItem),
      parseAnswers text N = some answers → ∀ a ∈ answers,
        '\n' ∉ a.text.toList ∧
        ∃ line ∈ splitOnChar '\n' text.toList, matchNumLine (jsTrimL line) = some a := by
  intro text N answers h a ha
  have hans : answers = parsedAnswerLines text := by
    simp only [parseAnswers] at h
    split at h
    · injection h with h'; exact h'.symm
    · simp at h
  subst hans
  simp only [parsedAnswerLines] at ha
  obtain ⟨l', hl', hmatch⟩ := List.mem_filterMap.mp ha
  have hl'' := (List.mem_filter.mp hl').1
  obtain ⟨line, hline, htrim⟩ := List.mem_map.mp hl''
  constructor
  · intro hnl
    have := matchNumLine_text_noLineTerm hmatch '\n' hnl
    simp [isLineTerm] at this
  · exact ⟨line, hline, by rw [htrim]; exact hmatch⟩

/-- Witness for C4's amended theorem at a concrete accepted submission. -/
theorem C4_amended_single_line_capture_witness :
    '\n' ∉ (⟨1, "hi"⟩ : NumberedItem).text.toList ∧
    ∃ line ∈ splitOnChar '\n' ("1. hi" : String).toList,
      matchNumLine (jsTrimL line) = some ⟨1, "hi"⟩ :=
  C4_amended_single_line_capture "1. hi" 1 [⟨1, "hi"⟩] (by decide) ⟨1, "hi"⟩ (by decide)

/-- C5: `parseQuestions` returns exactly the lines starting with digits, a
period, optional whitespace and content, as (number, trimmed text) records in
source order — stated as agreement with the spec-side matcher on every text
free of non-newline line terminators (a JS `.` never matches `\r`, U+2028 or
U+2029, so a text containing those inside a line is outside the spec's
line-oriented reading) — together with the spec's concrete scenario. -/
theorem C5_parseQuestions_matches_spec :
    (∀ text : String,
      (∀ c ∈ text.toList, c = '\n' ∨ isLineTerm c = false) →
      parseQuestions text = specParseQuestions text) ∧
    parseQuestions "1. What is REST?\n2. Explain CAP theorem\n3. Tell me about a conflict you resolved." =
      [⟨1, "What is REST?"⟩, ⟨2, "Explain CAP theorem"⟩,
       ⟨3, "Tell me about a conflict you resolved."⟩] := by
  constructor
  · intro text hch
    simp only [parseQuestions, specParseQuestions]
    apply List.filterMap_congr
    intro line hline
    have hline' := (List.mem_filter.mp hline).1
    apply matchNumLine_eq_specMatchLine
    intro c hc
    rcases hch c (splitOnChar_mem_mem line hline' c hc) with h | h
    · subst h
      exact absurd hc (splitOnChar_not_mem line hline')
    · exact h
  · decide

/-- Witness for C5 at a concrete text (hypothesis: no stray terminators). -/
theorem C5_parseQuestions_matches_spec_witness :
    parseQuestions "intro\n1. One?\nskip me\n2. Two." =
      specParseQuestions "intro\n1. One?\nskip me\n2. Two." :=
  C5_parseQuestions_matches_spec.1 "intro\n1. One?\nskip me\n2. Two." (by decide)

/-- C9 counterexample: a batch with a duplicate number is NOT invalidated:
`parseAnswers` accepts it whenever the count matches, contradicting the
claim that any gap or duplicate forces rejection. -/
theorem C9_counterexample_duplicate_accepted :
    parseAnswers "1. alpha\n1. beta" 2 = some [⟨1, "alpha"⟩, ⟨1, "beta"⟩] ∧
    parseAnswers "1. alpha\n1. beta" 2 ≠ none :=
  ⟨by decide, by decide⟩

/-- C9 amended: the parsing layer does not validate 1-based dense numbering;
`parseAnswers` accepts a batch if and only if the count of recovered
numbered lines equals expectedCount, regardless of gaps, duplicates or the
starting number (shown both in general and on gapped/duplicated batches). -/
theorem C9_amended_only_count_checked :
    (∀ (text : String) (N : Nat),
      (parseAnswers text N).isSome ↔ (parsedAnswerLines text).length = N) ∧
    parseAnswers "2. alpha\n5. beta" 2 = some [⟨2, "alpha"⟩, ⟨5, "beta"⟩] ∧
    parseAnswers "3. alpha\n3. beta" 2 = some [⟨3, "alpha"⟩, ⟨3, "beta"⟩] := by
  refine ⟨?_, by decide, by decide⟩
  intro text N
  simp only [parseAnswers]
  split
  · rename_i h; simpa using h
  · rename_i h; simpa using h

/-! ## Claims C8, C10, C2 (VectorIndex) -/

theorem cosineSimilarity_mismatch {sq : ℚ → ℚ} {a b : List OptQ}
    (h : a.length ≠ b.length) :
    cosineSimilarity sq a b = .error "Invalid vectors for similarity calculation" := by
  simp only [cosineSimilarity]
  rw [if_pos h]

theorem foldl_sumsq_zero {v : List OptQ} (h : ∀ x ∈ v, x = some 0) :
    ∀ q : ℚ, v.foldl (fun s a => addO s (mulO a a)) (some q) = some q := by
  induction v with
  | nil => intro q; rfl
  | cons a t ih =>
    intro q
    have ha := h a (List.mem_cons_self a t)
    subst ha
    simp only [List.foldl_cons]
    have hstep : addO (some q) (mulO (some 0) (some 0)) = some q := by
      simp [addO, mulO]
    rw [hstep]
    exact ih (fun x hx => h x (List.mem_cons_of_mem _ hx)) q

/-- C8: `cosineSimilarity` fails with the dimension-mismatch error whenever
the lengths differ; for equal-length vectors with a zero-magnitude side
(all components exactly 0) it returns 0 instead of failing or dividing by
zero.  The `sq 0 = 0` hypothesis pins the only property of `Math.sqrt` the
zero-magnitude guard relies on. -/
theorem C8_cosineSimilarity_mismatch_and_zero_magnitude (sq : ℚ → ℚ) (a b : List OptQ) :
    (a.length ≠ b.length →
      cosineSimilarity sq a b = .error "Invalid vectors for similarity calculation") ∧
    (a.length = b.length → sq 0 = 0 →
      ((∀ x ∈ a, x = some 0) ∨ (∀ x ∈ b, x = some 0)) →
      cosineSimilarity sq a b = .ok (some 0)) := by
  constructor
  · exact fun hne => cosineSimilarity_mismatch hne
  · intro hlen hsq hzero
    simp only [cosineSimilarity]
    rw [if_neg (fun hne => hne hlen)]
    have hguard : sqrtO sq (a.foldl (fun s x => addO s (mulO x x)) (some 0)) = some 0 ∨
        sqrtO sq (b.foldl (fun s x => addO s (mulO x x)) (some 0)) = some 0 := by
      rcases hzero with hz | hz
      · left
        rw [foldl_sumsq_zero hz 0]
        simp [sqrtO, hsq]
      · right
        rw [foldl_sumsq_zero hz 0]
        simp [sqrtO, hsq]
    rw [if_pos hguard]

/-- Witness for C8 at concrete inputs: mismatched lengths throw; a zero
vector against a non-degenerate vector yields similarity 0. -/
theorem C8_cosineSimilarity_mismatch_and_zero_magnitude_witness :
    cosineSimilarity id [some 1] [some 1, some 2] =
      .error "Invalid vectors for similarity calculation" ∧
    cosineSimilarity id [some 0, some 0] [some 3, some 4] = .ok (some 0) :=
  ⟨(C8_cosineSimilarity_mismatch_and_zero_magnitude id [some 1] [some 1, some 2]).1 (by decide),
   (C8_cosineSimilarity_mismatch_and_zero_magnitude id [some 0, some 0] [some 3, some 4]).2
     (by decide) (by decide) (Or.inl (by decide))⟩

theorem simsFrom_error_of_mismatch {sq : ℚ → ℚ} {q : List OptQ} {cs : List Chunk}
    (h : ∃ c ∈ cs, c.embedding.length ≠ q.length) :
    ∀ i, ∃ e, simsFrom sq q i cs = .error e := by
  induction cs with
  | nil => simp at h
  | cons c t ih =>
    intro i
    obtain ⟨c', hc', hne⟩ := h
    cases hcos : cosineSimilarity sq q c.embedding with
    | error e => exact ⟨e, by simp [simsFrom, hcos]⟩
    | ok s =>
      have hlen : q.length = c.embedding.length := by
        by_contra hq
        rw [cosineSimilarity_mismatch hq] at hcos
        exact absurd hcos (by simp)
      rcases List.mem_cons.mp hc' with h' | h'
      · subst h'
        exact absurd hlen.symm hne
      · obtain ⟨e, he⟩ := ih ⟨c', h', hne⟩ (i + 1)
        exact ⟨e, by simp [simsFrom, hcos, he]⟩

/-- C10 counterexample: an empty (non-null) query embedding is NOT an
"invalid input" to the guard — JS `![]` is false — so against a chunk whose
stored embedding is also empty, `findSimilarChunks` returns a similarity-0
result instead of the empty list the claim requires for empty query
embeddings. -/
theorem C10_counterexample_empty_query_nonempty_result :
    findSimilarChunks id (some []) (some [⟨"stub", []⟩]) 3 =
      [⟨0, ⟨"stub", []⟩, some 0⟩] ∧
    findSimilarChunks id (some []) (some [⟨"stub", []⟩]) 3 ≠ [] :=
  ⟨by decide, by decide⟩

/-- C10 amended: `findSimilarChunks` is total (its type returns a list, with
every thrown inner error caught) and returns the empty list on a
null/undefined query, a null/undefined chunk list, an empty chunk list, or
whenever some chunk's embedding length differs from the query's (the inner
`cosineSimilarity` throw); an empty non-null query embedding is only
rejected through the mismatch path, not by the input guard. -/
theorem C10_amended_total_and_guarded (sq : ℚ → ℚ) (q : List OptQ) (cs : List Chunk) (k : Nat) :
    findSimilarChunks sq none (some cs) k = [] ∧
    findSimilarChunks sq (some q) none k = [] ∧
    findSimilarChunks sq (some q) (some []) k = [] ∧
    ((∃ c ∈ cs, c.embedding.length ≠ q.length) →
      findSimilarChunks sq (some q) (some cs) k = []) := by
  refine ⟨rfl, rfl, rfl, ?_⟩
  intro hmis
  obtain ⟨e, he⟩ := simsFrom_error_of_mismatch hmis 0
  simp only [findSimilarChunks]
  split
  · rfl
  · rw [he]

/-- Witness for C10's amended theorem at concrete inputs. -/
theorem C10_amended_total_and_guarded_witness :
    findSimilarChunks id none (some [⟨"s", [some 1, some 2]⟩]) 5 = [] ∧
    findSimilarChunks id (some [some 1]) none 5 = [] ∧
    findSimilarChunks id (some [some 1]) (some []) 5 = [] ∧
    findSimilarChunks id (some [some 1]) (some [⟨"s", [some 1, some 2]⟩]) 5 = [] := by
  have h := C10_amended_total_and_guarded id [some 1] [⟨"s", [some 1, some 2]⟩] 5
  exact ⟨h.1, h.2.1, h.2.2.1, h.2.2.2 ⟨⟨"s", [some 1, some 2]⟩, by decide, by decide⟩⟩

theorem length_insertBy (le : α → α → Bool) (x : α) (l : List α) :
    (insertBy le x l).length = l.length + 1 := by
  induction l with
  | nil => rfl
  | cons y ys ih =>
    simp only [insertBy]
    split
    · simp
    · simp [ih]

theorem length_stableSort (le : α → α → Bool) (l : List α) :
    (stableSort le l).length = l.length := by
  induction l with
  | nil => rfl
  | cons x xs ih => simp [stableSort, length_insertBy, ih]

theorem mem_insertBy {le : α → α → Bool} {x a : α} {l : List α} :
    a ∈ insertBy le x l ↔ a = x ∨ a ∈ l := by
  induction l with
  | nil => simp [insertBy]
  | cons y ys ih =>
    simp only [insertBy]
    split
    · simp
    · simp only [List.mem_cons, ih]
      tauto

theorem mem_stableSort {le : α → α → Bool} {a : α} {l : List α} :
    a ∈ stableSort le l ↔ a ∈ l := by
  induction l with
  | nil => simp [stableSort]
  | cons x xs ih =>
    simp only [stableSort, mem_insertBy, ih, List.mem_cons]

theorem pairwise_insertBy {le : α → α → Bool} {S : α → α → Prop}
    (htot : ∀ a b, le a b = true ∨ le b a = true)
    (htrans : ∀ a b c, le a b = true → le b c = true → le a c = true)
    {x : α} : ∀ {l : List α},
    l.Pairwise (fun a b => le a b = true ∧ (le b a = true → S a b)) →
    (∀ y ∈ l, S x y) →
    (insertBy le x l).Pairwise (fun a b => le a b = true ∧ (le b a = true → S a b)) := by
  intro l
  induction l with
  | nil =>
    intro _ _
    simp [insertBy]
  | cons y ys ih =>
    intro hl hx
    rcases List.pairwise_cons.mp hl with ⟨hy, hys⟩
    simp only [insertBy]
    split
    · rename_i hxy
      apply List.Pairwise.cons
      · intro z hz
        rcases List.mem_cons.mp hz with h | h
        · subst h
          exact ⟨hxy, fun _ => hx z (List.mem_cons_self z ys)⟩
        · exact ⟨htrans x y z hxy (hy z h).1, fun _ => hx z (List.mem_cons_of_mem _ h)⟩
      · exact hl
    · rename_i hxy
      have hyx : le y x = true := by
        rcases htot x y with h | h
        · exact absurd h hxy
        · exact h
      apply List.Pairwise.cons
      · intro z hz
        rcases mem_insertBy.mp hz with h | h
        · subst h
          exact ⟨hyx, fun hc => absurd hc hxy⟩
        · exact hy z h
      · exact ih hys (fun z hz => hx z (List.mem_cons_of_mem _ hz))

theorem pairwise_stableSort {le : α → α → Bool} {S : α → α → Prop}
    (htot : ∀ a b, le a b = true ∨ le b a = true)
    (htrans : ∀ a b c, le a b = true → le b c = true → le a c = true) :
    ∀ {l : List α}, l.Pairwise S →
    (stableSort le l).Pairwise (fun a b => le a b = true ∧ (le b a = true → S a b)) := by
  intro l
  induction l with
  | nil =>
    intro _
    simp [stableSort]
  | cons x xs ih =>
    intro hl
    rcases List.pairwise_cons.mp hl with ⟨hx, hxs⟩
    simp only [stableSort]
    exact pairwise_insertBy htot htrans (ih hxs)
      (fun y hy => hx y (mem_stableSort.mp hy))

theorem simLe_total (a b : RetrievalResult) : simLe a b = true ∨ simLe b a = true := by
  simp only [simLe]
  cases a.similarity with
  | none => simp
  | some x =>
    cases b.similarity with
    | none => simp
    | some y =>
      rcases le_total x y with h | h <;> simp [h]

theorem simLe_trans (a b c : RetrievalResult) :
    simLe a b = true → simLe b c = true → simLe a c = true := by
  simp only [simLe]
  cases a.similarity with
  | none => simp
  | some x =>
    cases b.similarity with
    | none => simp
    | some y =>
      cases c.similarity with
      | none => simp
      | some z =>
        intro h₁ h₂
        simp only [decide_eq_true_eq] at h₁ h₂ ⊢
        exact le_trans h₂ h₁

theorem simLe_of_eq {a b : RetrievalResult} (h : a.similarity = b.similarity) :
    simLe b a = true := by
  simp only [simLe]
  cases ha : a.similarity with
  | none => rw [h] at ha; simp [ha]
  | some x =>
    rw [h] at ha
    simp [ha]

theorem foldl_dot_some {l : List (OptQ × OptQ)} (h : ∀ p ∈ l, p.1.isSome ∧ p.2.isSome) :
    ∀ init : ℚ, ∃ r : ℚ, l.foldl (fun s p => addO s (mulO p.1 p.2)) (some init) = some r := by
  induction l with
  | nil => exact fun init => ⟨init, rfl⟩
  | cons p t ih =>
    intro init
    obtain ⟨hp1, hp2⟩ := h p (List.mem_cons_self p t)
    obtain ⟨a, ha⟩ := Option.isSome_iff_exists.mp hp1
    obtain ⟨b, hb⟩ := Option.isSome_iff_exists.mp hp2
    simp only [List.foldl_cons, ha, hb]
    have hstep : addO (some init) (mulO (some a) (some b)) = some (init + a * b) := rfl
    rw [hstep]
    exact ih (fun x hx => h x (List.mem_cons_of_mem _ hx)) (init + a * b)

theorem foldl_sumsq_some_nonneg {v : List OptQ} (h : ∀ x ∈ v, x.isSome) :
    ∀ init : ℚ, 0 ≤ init →
      ∃ m : ℚ, v.foldl (fun s a => addO s (mulO a a)) (some init) = some m ∧ 0 ≤ m := by
  induction v with
  | nil => exact fun init hinit => ⟨init, rfl, hinit⟩
  | cons a t ih =>
    intro init hinit
    obtain ⟨x, hx⟩ := Option.isSome_iff_exists.mp (h a (List.mem_cons_self a t))
    simp only [List.foldl_cons, hx]
    have hstep : addO (some init) (mulO (some x) (some x)) = some (init + x * x) := rfl
    rw [hstep]
    exact ih (fun y hy => h y (List.mem_cons_of_mem _ hy)) (init + x * x)
      (add_nonneg hinit (mul_self_nonneg x))

/-- On a well-formed pair (equal lengths, no NaN component), the cosine
similarity call succeeds and produces a finite value. -/
theorem cosineSimilarity_finite {sq : ℚ → ℚ} {q e : List OptQ}
    (hlen : e.length = q.length) (hq : ∀ x ∈ q, x.isSome) (he : ∀ x ∈ e, x.isSome) :
    ∃ v : ℚ, cosineSimilarity sq q e = .ok (some v) := by
  simp only [cosineSimilarity]
  rw [if_neg (fun hne => hne hlen.symm)]
  obtain ⟨mA, hmA, hmA0⟩ := foldl_sumsq_some_nonneg hq 0 le_rfl
  obtain ⟨mB, hmB, hmB0⟩ := foldl_sumsq_some_nonneg he 0 le_rfl
  obtain ⟨d, hd⟩ := @foldl_dot_some (q.zip e)
    (fun p hp => ⟨by
        obtain ⟨h1, _⟩ := List.mem_zip hp
        exact hq p.1 h1,
      by
        obtain ⟨_, h2⟩ := List.mem_zip hp
        exact he p.2 h2⟩) 0
  split
  · exact ⟨0, rfl⟩
  · rename_i hguard
    push_neg at hguard
    obtain ⟨hg1, hg2⟩ := hguard
    rw [hmA] at hg1
    rw [hmB] at hg2
    have hsa : sqrtO sq (some mA) = some (sq mA) := by simp [sqrtO, not_lt.mpr hmA0]
    have hsb : sqrtO sq (some mB) = some (sq mB) := by simp [sqrtO, not_lt.mpr hmB0]
    rw [hsa] at hg1
    rw [hsb] at hg2
    have hA0 : sq mA ≠ 0 := by
      intro h0
      exact hg1 (by rw [h0])
    have hB0 : sq mB ≠ 0 := by
      intro h0
      exact hg2 (by rw [h0])
    rw [hd, hmA, hmB, hsa, hsb]
    have hmul : mulO (some (sq mA)) (some (sq mB)) = some (sq mA * sq mB) := rfl
    rw [hmul]
    have hdiv : divO (some d) (some (sq mA * sq mB)) = some (d / (sq mA * sq mB)) := by
      simp [divO, mul_ne_zero hA0 hB0]
    rw [hdiv]
    exact ⟨d / (sq mA * sq mB), rfl⟩

theorem simsFrom_ok {sq : ℚ → ℚ} {q : List OptQ} :
    ∀ {cs : List Chunk},
    (∀ c ∈ cs, c.embedding.length = q.length) →
    (∀ x ∈ q, x.isSome) →
    (∀ c ∈ cs, ∀ x ∈ c.embedding, x.isSome) →
    ∀ i, ∃ sims, simsFrom sq q i cs = .ok sims ∧
      sims.length = cs.length ∧
      (∀ x ∈ sims, i ≤ x.index) ∧
      (∀ x ∈ sims, x.chunk ∈ cs ∧
        cosineSimilarity sq q x.chunk.embedding = .ok x.similarity ∧
        x.similarity.isSome) ∧
      sims.Pairwise (fun a b => a.index < b.index) := by
  intro cs
  induction cs with
  | nil =>
    intro _ _ _ i
    exact ⟨[], rfl, rfl, by simp, by simp, List.Pairwise.nil⟩
  | cons c t ih =>
    intro hdim hq hfin i
    obtain ⟨v, hv⟩ := @cosineSimilarity_finite sq q c.embedding
      (hdim c (List.mem_cons_self c t)) hq (hfin c (List.mem_cons_self c t))
    obtain ⟨rest, hrest, hlen, hge, hmem, hpair⟩ :=
      ih (fun c' h => hdim c' (List.mem_cons_of_mem _ h)) hq
        (fun c' h => hfin c' (List.mem_cons_of_mem _ h)) (i + 1)
    refine ⟨⟨i, c, some v⟩ :: rest, ?_, ?_, ?_, ?_, ?_⟩
    · simp [simsFrom, hv, hrest]
    · simp [hlen]
    · intro x hx
      rcases List.mem_cons.mp hx with h | h
      · subst h; exact le_rfl
      · exact Nat.le_of_succ_le (hge x h)
    · intro x hx
      rcases List.mem_cons.mp hx with h | h
      · subst h
        exact ⟨List.mem_cons_self c t, hv, rfl⟩
      · obtain ⟨h1, h2, h3⟩ := hmem x h
        exact ⟨List.mem_cons_of_mem _ h1, h2, h3⟩
    · exact List.Pairwise.cons
        (fun b hb => Nat.lt_of_succ_le (hge b hb)) hpair

/-- C2: under the spec's data-model invariants (uniform embedding
dimensionality, finite components), `query` = `findSimilarChunks` computes a
similarity for every chunk, discards nothing non-finite (none can arise, and
every returned similarity is finite), returns results sorted descending by
similarity with ties in original chunk order, and has length
`min k (number of chunks)`. -/
theorem C2_findSimilarChunks_sorted_topk (sq : ℚ → ℚ) (q : List OptQ)
    (chunks : List Chunk) (k : Nat)
    (hk : 0 < k)
    (hq : ∀ x ∈ q, x.isSome)
    (hdim : ∀ c ∈ chunks, c.embedding.length = q.length)
    (hfin : ∀ c ∈ chunks, ∀ x ∈ c.embedding, x.isSome) :
    (findSimilarChunks sq (some q) (some chunks) k).length = min k chunks.length ∧
    (findSimilarChunks sq (some q) (some chunks) k).Pairwise
      (fun a b => simLe a b = true ∧ (a.similarity = b.similarity → a.index < b.index)) ∧
    ∀ x ∈ findSimilarChunks sq (some q) (some chunks) k,
      x.chunk ∈ chunks ∧
      cosineSimilarity sq q x.chunk.embedding = .ok x.similarity ∧
      x.similarity.isSome := by
  by_cases h0 : chunks.length = 0
  · have hnil : chunks = [] := List.length_eq_zero.mp h0
    subst hnil
    have hres0 : findSimilarChunks sq (some q) (some ([] : List Chunk)) k = [] := rfl
    refine ⟨by rw [hres0]; simp, by rw [hres0]; exact List.Pairwise.nil, by rw [hres0]; simp⟩
  · obtain ⟨sims, hsims, hlen, hge, hmem, hpair⟩ := simsFrom_ok hdim hq hfin 0
    have hkeep : sims.filter (fun item => !(isNaNO item.similarity)) = sims := by
      rw [List.filter_eq_self]
      intro a ha
      obtain ⟨v, hv⟩ := Option.isSome_iff_exists.mp (hmem a ha).2.2
      simp [isNaNO, hv]
    have hres : findSimilarChunks sq (some q) (some chunks) k =
        (stableSort simLe sims).take k := by
      simp only [findSimilarChunks]
      rw [if_neg h0]
      rw [hsims]
      show (stableSort simLe (sims.filter (fun item => !(isNaNO item.similarity)))).take k =
        (stableSort simLe sims).take k
      rw [hkeep]
    rw [hres]
    refine ⟨?_, ?_, ?_⟩
    · rw [List.length_take, length_stableSort, hlen]
    · have hs := @pairwise_stableSort RetrievalResult simLe
        (fun a b => a.index < b.index) simLe_total simLe_trans sims hpair
      exact (List.Pairwise.sublist (List.take_sublist k _) hs).imp
        (fun h => ⟨h.1, fun heq => h.2 (simLe_of_eq heq)⟩)
    · intro x hx
      exact hmem x (mem_stableSort.mp (List.mem_of_mem_take hx))

/-- Witness for C2 at a concrete query and two chunks. -/
theorem C2_findSimilarChunks_sorted_topk_witness :
    (findSimilarChunks id (some [some 1, some 0])
        (some [⟨"a", [some 1, some 0]⟩, ⟨"b", [some 0, some 1]⟩]) 1).length =
      min 1 ([⟨"a", [some 1, some 0]⟩, ⟨"b", [some 0, some 1]⟩] : List Chunk).length ∧
    (findSimilarChunks id (some [some 1, some 0])
        (some [⟨"a", [some 1, some 0]⟩, ⟨"b", [some 0, some 1]⟩]) 1).Pairwise
      (fun a b => simLe a b = true ∧ (a.similarity = b.similarity → a.index < b.index)) ∧
    ∀ x ∈ findSimilarChunks id (some [some 1, some 0])
        (some [⟨"a", [some 1, some 0]⟩, ⟨"b", [some 0, some 1]⟩]) 1,
      x.chunk ∈ [⟨"a", [some 1, some 0]⟩, ⟨"b", [some 0, some 1]⟩] ∧
      cosineSimilarity id [some 1, some 0] x.chunk.embedding = .ok x.similarity ∧
      x.similarity.isSome :=
  C2_findSimilarChunks_sorted_topk id [some 1, some 0]
    [⟨"a", [some 1, some 0]⟩, ⟨"b", [some 0, some 1]⟩] 1
    (by decide) (by decide) (by decide) (by decide)

/-! ## Claims C1, C6, C7 (AnswerEvaluator) -/

theorem retryAux_all_errors {α : Type} {fn : Nat → Except ProviderError α}
    (hfail : ∀ j, ∃ e, fn j = Except.error e) :
    ∀ (rem i : Nat), rem ≠ 0 → ∃ e, retryAux fn i rem = some (Except.error e) := by
  intro rem
  induction rem with
  | zero =>
    intro i h
    exact absurd rfl h
  | succ r ih =>
    intro i _
    obtain ⟨e, he⟩ := hfail i
    simp only [retryAux, he]
    split
    · exact ⟨e, rfl⟩
    · rename_i hcond
      refine ih (i + 1) ?_
      intro hr0
      subst hr0
      simp at hcond

theorem retryAux_ok {α : Type} {fn : Nat → Except ProviderError α} :
    ∀ (rem i : Nat) (v : α), retryAux fn i rem = some (Except.ok v) → ∃ j, fn j = Except.ok v := by
  intro rem
  induction rem with
  | zero =>
    intro i v h
    simp [retryAux] at h
  | succ r ih =>
    intro i v h
    cases hf : fn i with
    | ok a =>
      have hval : retryAux fn i (r + 1) = some (Except.ok a) := by
        simp [retryAux, hf]
      rw [hval] at h
      simp only [Option.some.injEq, Except.ok.injEq] at h
      exact ⟨i, by rw [hf, h]⟩
    | error e =>
      have hval : retryAux fn i (r + 1) =
          if r = 0 ∨ ¬ isRateLimitError e then some (Except.error e)
          else retryAux fn (i + 1) r := by
        simp [retryAux, hf]
      rw [hval] at h
      split at h
      · simp at h
      · exact ih (i + 1) v h

theorem evalAttempt_ok {gen : Nat → Except ProviderError String} {n i : Nat}
    {v : List Evaluation} (h : evalAttempt gen n i = Except.ok v) :
    ∃ text, v = parseEvaluations text n := by
  cases hg : gen i with
  | error e =>
    have hval : evalAttempt gen n i = Except.error e := by
      simp [evalAttempt, hg]
    rw [hval] at h
    simp at h
  | ok text =>
    have hval : evalAttempt gen n i =
        if (jsTrimL text.toList).isEmpty then Except.error ⟨none, false⟩
        else Except.ok (parseEvaluations text n) := by
      simp [evalAttempt, hg]
    rw [hval] at h
    split at h
    · simp at h
    · injection h with h'
      exact ⟨text, h'.symm⟩

theorem length_parseEvaluations (text : String) (n : Nat) :
    (parseEvaluations text n).length = n := by
  simp only [parseEvaluations]
  rw [List.length_take, List.length_append, List.length_replicate]
  omega

theorem clampScore_bounds (n : Nat) : 1 ≤ clampScore n ∧ clampScore n ≤ 10 := by
  unfold clampScore
  constructor
  · exact le_max_left 1 _
  · exact max_le (by norm_num) (min_le_left 10 n)

theorem mem_parseEvaluations {text : String} {n : Nat} {ev : Evaluation}
    (h : ev ∈ parseEvaluations text n) :
    (∃ b, ev = parseBlock b) ∨ ev = paddingEvaluation := by
  simp only [parseEvaluations] at h
  have h1 := List.mem_of_mem_take h
  rcases List.mem_append.mp h1 with h2 | h2
  · simp only [blockEvals] at h2
    obtain ⟨b, _, hb⟩ := List.mem_map.mp h2
    exact Or.inl ⟨b, hb.symm⟩
  · exact Or.inr (List.eq_of_mem_replicate h2)

/-- Any Evaluation ever returned by `evaluateAllAnswers` is the total-failure
fallback, the reconciliation padding, or a parsed block. -/
theorem evaluateAllAnswers_mem_cases {pairs : List QA} {ctx : String}
    {gen : Nat → Except ProviderError String} {ev : Evaluation}
    (h : ev ∈ evaluateAllAnswers pairs ctx gen) :
    ev = fallbackEvaluation ∨ ev = paddingEvaluation ∨ ∃ b, ev = parseBlock b := by
  simp only [evaluateAllAnswers] at h
  split at h
  · obtain ⟨_, _, hh⟩ := List.mem_map.mp h
    exact Or.inl hh.symm
  · cases hr : retryWithBackoff (evalAttempt gen pairs.length) MAX_RETRIES with
    | none =>
      rw [hr] at h
      obtain ⟨_, _, hh⟩ := List.mem_map.mp h
      exact Or.inl hh.symm
    | some r =>
      cases r with
      | error e =>
        rw [hr] at h
        obtain ⟨_, _, hh⟩ := List.mem_map.mp h
        exact Or.inl hh.symm
      | ok evs =>
        rw [hr] at h
        obtain ⟨j, hj⟩ := retryAux_ok MAX_RETRIES 0 evs hr
        obtain ⟨text, htext⟩ := evalAttempt_ok hj
        subst htext
        have h' : ev ∈ parseEvaluations text pairs.length := h
        rcases mem_parseEvaluations h' with ⟨b, hb⟩ | hb
        · exact Or.inr (Or.inr ⟨b, hb⟩)
        · exact Or.inr (Or.inl hb)

/-- C6: every Evaluation produced by `evaluateAllAnswers` — whatever the
model's response text contains — has (integral, by the `Nat` score type)
score, relevanceScore and correctnessScore within [1, 10]. -/
theorem C6_evaluation_scores_clamped :
    ∀ (pairs : List QA) (ctx : String) (gen : Nat → Except ProviderError String)
      (ev : Evaluation), ev ∈ evaluateAllAnswers pairs ctx gen →
      1 ≤ ev.score ∧ ev.score ≤ 10 ∧
      1 ≤ ev.relevanceScore ∧ ev.relevanceScore ≤ 10 ∧
      1 ≤ ev.correctnessScore ∧ ev.correctnessScore ≤ 10 := by
  intro pairs ctx gen ev h
  rcases evaluateAllAnswers_mem_cases h with hb | hb | ⟨b, hb⟩ <;> subst hb
  · exact ⟨by decide, by decide, by decide, by decide, by decide, by decide⟩
  · exact ⟨by decide, by decide, by decide, by decide, by decide, by decide⟩
  · exact ⟨(clampScore_bounds _).1, (clampScore_bounds _).2,
      (clampScore_bounds _).1, (clampScore_bounds _).2,
      (clampScore_bounds _).1, (clampScore_bounds _).2⟩

/-- Witness for C6: a malformed response (out-of-range number, missing
fields) still yields in-range scores. -/
theorem C6_evaluation_scores_clamped_witness :
    1 ≤ (parseBlock "\nRelevance: 99\nFeedback: x").score ∧
    (parseBlock "\nRelevance: 99\nFeedback: x").score ≤ 10 ∧
    1 ≤ (parseBlock "\nRelevance: 99\nFeedback: x").relevanceScore ∧
    (parseBlock "\nRelevance: 99\nFeedback: x").relevanceScore ≤ 10 ∧
    1 ≤ (parseBlock "\nRelevance: 99\nFeedback: x").correctnessScore ∧
    (parseBlock "\nRelevance: 99\nFeedback: x").correctnessScore ≤ 10 :=
  C6_evaluation_scores_clamped [⟨"q", "a"⟩] "ctx"
    (fun _ => Except.ok "Question 1:\nRelevance: 99\nFeedback: x")
    (parseBlock "\nRelevance: 99\nFeedback: x") (by decide)

/-- C1: on total external-call failure (every retry attempt errors, whatever
the error), `evaluateAllAnswers` does not raise — it returns exactly one
neutral-default Evaluation per pair, each scoring 5/5/5. -/
theorem C1_fallback_on_total_failure :
    ∀ (pairs : List QA) (ctx : String) (gen : Nat → Except ProviderError String),
      pairs ≠ [] → (∀ i, ∃ e, gen i = Except.error e) →
      evaluateAllAnswers pairs ctx gen = pairs.map (fun _ => fallbackEvaluation) ∧
      (evaluateAllAnswers pairs ctx gen).length = pairs.length ∧
      ∀ ev ∈ evaluateAllAnswers pairs ctx gen,
        ev.score = 5 ∧ ev.relevanceScore = 5 ∧ ev.correctnessScore = 5 := by
  intro pairs ctx gen hne hfail
  have hfail' : ∀ j, ∃ e, evalAttempt gen pairs.length j = Except.error e := by
    intro j
    obtain ⟨e, he⟩ := hfail j
    exact ⟨e, by simp [evalAttempt, he]⟩
  obtain ⟨e, he⟩ := retryAux_all_errors hfail' MAX_RETRIES 0 (by decide)
  have hmain : evaluateAllAnswers pairs ctx gen = pairs.map (fun _ => fallbackEvaluation) := by
    simp only [evaluateAllAnswers]
    rw [if_neg (by simpa using hne)]
    simp only [retryWithBackoff]
    rw [he]
  refine ⟨hmain, ?_, ?_⟩
  · rw [hmain, List.length_map]
  · intro ev hev
    rw [hmain] at hev
    obtain ⟨_, _, hh⟩ := List.mem_map.mp hev
    rw [← hh]
    exact ⟨rfl, rfl, rfl⟩

/-- Witness for C1: three pairs, a provider that always errors (rate-limit
flavoured, so all three retries are consumed), three 5/5/5 evaluations. -/
theorem C1_fallback_on_total_failure_witness :
    evaluateAllAnswers [⟨"q1", "a1"⟩, ⟨"q2", "a2"⟩, ⟨"q3", "a3"⟩] "ctx"
        (fun _ => Except.error ⟨some 503, true⟩) =
      ([⟨"q1", "a1"⟩, ⟨"q2", "a2"⟩, ⟨"q3", "a3"⟩] : List QA).map (fun _ => fallbackEvaluation) ∧
    (evaluateAllAnswers [⟨"q1", "a1"⟩, ⟨"q2", "a2"⟩, ⟨"q3", "a3"⟩] "ctx"
        (fun _ => Except.error ⟨some 503, true⟩)).length =
      ([⟨"q1", "a1"⟩, ⟨"q2", "a2"⟩, ⟨"q3", "a3"⟩] : List QA).length ∧
    ∀ ev ∈ evaluateAllAnswers [⟨"q1", "a1"⟩, ⟨"q2", "a2"⟩, ⟨"q3", "a3"⟩] "ctx"
        (fun _ => Except.error ⟨some 503, true⟩),
      ev.score = 5 ∧ ev.relevanceScore = 5 ∧ ev.correctnessScore = 5 :=
  C1_fallback_on_total_failure [⟨"q1", "a1"⟩, ⟨"q2", "a2"⟩, ⟨"q3", "a3"⟩] "ctx"
    (fun _ => Except.error ⟨some 503, true⟩) (by decide)
    (fun _ => ⟨⟨some 503, true⟩, rfl⟩)

/-- C7: `evaluateAllAnswers` always returns as many Evaluations as pairs;
when fewer blocks are parsed than pairs it pads with the neutral default,
and when more are parsed it truncates to the number of pairs. -/
theorem C7_reconciliation_pads_and_truncates :
    (∀ (pairs : List QA) (ctx : String) (gen : Nat → Except ProviderError String),
      (evaluateAllAnswers pairs ctx gen).length = pairs.length) ∧
    (∀ (text : String) (n : Nat), (blockEvals text).length < n →
      parseEvaluations text n =
        blockEvals text ++ List.replicate (n - (blockEvals text).length) paddingEvaluation) ∧
    (∀ (text : String) (n : Nat), n ≤ (blockEvals text).length →
      parseEvaluations text n = (blockEvals text).take n) := by
  refine ⟨?_, ?_, ?_⟩
  · intro pairs ctx gen
    simp only [evaluateAllAnswers]
    split
    · simp
    · cases hr : retryWithBackoff (evalAttempt gen pairs.length) MAX_RETRIES with
      | none => simp
      | some r =>
        cases r with
        | error e => simp
        | ok evs =>
          obtain ⟨j, hj⟩ := retryAux_ok MAX_RETRIES 0 evs hr
          obtain ⟨text, htext⟩ := evalAttempt_ok hj
          subst htext
          exact length_parseEvaluations text pairs.length
  · intro text n hlt
    simp only [parseEvaluations]
    have hlen : (blockEvals text ++
        List.replicate (n - (blockEvals text).length) paddingEvaluation).length ≤ n := by
      rw [List.length_append, List.length_replicate]
      omega
    rw [List.take_of_length_le hlen]
  · intro text n hle
    simp only [parseEvaluations]
    rw [Nat.sub_eq_zero_of_le hle, List.replicate_zero, List.append_nil]

/-- Witness for C7: a one-block response is padded up to 2 pairs and
truncated down to 1 pair. -/
theorem C7_reconciliation_pads_and_truncates_witness :
    parseEvaluations "Question 1:\nOverall: 9\nFeedback: fine" 2 =
      blockEvals "Question 1:\nOverall: 9\nFeedback: fine" ++
        List.replicate
          (2 - (blockEvals "Question 1:\nOverall: 9\nFeedback: fine").length)
          paddingEvaluation ∧
    parseEvaluations "Question 1:\nOverall: 9\nFeedback: fine" 1 =
      (blockEvals "Question 1:\nOverall: 9\nFeedback: fine").take 1 :=
  ⟨C7_reconciliation_pads_and_truncates.2.1 "Question 1:\nOverall: 9\nFeedback: fine" 2
     (by decide),
   C7_reconciliation_pads_and_truncates.2.2 "Question 1:\nOverall: 9\nFeedback: fine" 1
     (by decide)⟩
